import Mathlib

/-!
Verification of the CoC Solana mint contract (`src/program/src/lib.rs`).

The development is a shallow embedding of the contract: the instruction
decoder (`ContractInstruction::unpack` and its helpers), the borsh
(de)serialization of the two persisted record types (`ContractState` and
`MintPermission`), and the five instruction handlers, each modelled as a
pure function from the supplied account list to an `Outcome` recording the
accounts after the call, the downstream spl-token calls dispatched, and the
returned result.

Modelling conventions: bytes are natural numbers (a well-formed buffer has
every entry below 256); account data buffers are `List Nat`; a 32-byte
identifier (`Pubkey`) is the list of its bytes; a Rust `String` is the list
of its UTF-8 bytes. The host rent sysvar read in `initialize_contract` is
abstracted as a predicate argument, and the external spl-token `invoke` as
a function argument from the dispatched call to a result, since both live
outside this program.
-/

deriving instance DecidableEq for Except

namespace CoC

/-- A 32-byte Solana public key, as the list of its bytes. -/
abbrev Pubkey := List Nat

/-- A Rust `String`, as the list of its UTF-8 bytes. -/
abbrev Str := List Nat

/-- Little-endian value of a byte list (`u64::from_le_bytes` and the borsh
`u32` length prefixes). -/
def leVal : List Nat → Nat
  | [] => 0
  | b :: bs => b + 256 * leVal bs

/-- The `w` little-endian bytes of `v` (`to_le_bytes`; truncation to `w`
bytes matches the wrapping of the corresponding Rust integer types). -/
def leBytes : Nat → Nat → List Nat
  | 0, _ => []
  | w + 1, v => v % 256 :: leBytes w (v / 256)

/-- Rust UTF-8 validation (`String::from_utf8`): the standard lead-byte
table with the continuation-byte restrictions that exclude overlong
encodings, surrogates, and values above `0x10FFFF`. -/
def validUtf8 : List Nat → Bool
  | [] => true
  | b :: rest =>
    if b < 0x80 then validUtf8 rest
    else if b < 0xC2 then false
    else if b < 0xE0 then
      match rest with
      | c :: r => decide (0x80 ≤ c ∧ c < 0xC0) && validUtf8 r
      | [] => false
    else if b < 0xF0 then
      match rest with
      | c :: d :: r =>
        (if b = 0xE0 then decide (0xA0 ≤ c ∧ c < 0xC0)
         else if b = 0xED then decide (0x80 ≤ c ∧ c < 0xA0)
         else decide (0x80 ≤ c ∧ c < 0xC0)) &&
        decide (0x80 ≤ d ∧ d < 0xC0) && validUtf8 r
      | _ => false
    else if b < 0xF5 then
      match rest with
      | c :: d :: e :: r =>
        (if b = 0xF0 then decide (0x90 ≤ c ∧ c < 0xC0)
         else if b = 0xF4 then decide (0x80 ≤ c ∧ c < 0x90)
         else decide (0x80 ≤ c ∧ c < 0xC0)) &&
        decide (0x80 ≤ d ∧ d < 0xC0) && decide (0x80 ≤ e ∧ e < 0xC0) &&
        validUtf8 r
      | _ => false
    else false

/-- The contract's `CustomError` codes. -/
inductive CustomError
  | NotAdmin
  | MintNotPermitted
  | NotTokenOwner
  | InvalidInstruction
deriving DecidableEq

/-- The `ProgramError` values this program surfaces: its custom errors, the
rent check failure, borsh (de)serialization failures (collapsed to a single
constructor, as the program only propagates them), and a missing account
from `next_account_info`. -/
inductive ProgramError
  | Custom : CustomError → ProgramError
  | AccountNotRentExempt
  | BorshIoError
  | NotEnoughAccountKeys
deriving DecidableEq

/-- The five instruction variants of `ContractInstruction`. -/
inductive ContractInstruction
  | InitializeContract (owner : Pubkey)
  | GrantMint (user : Pubkey) (game_id : Str) (token_uri : Str)
  | Mint (receiver : Pubkey) (game_id : Str)
  | Transfer (token_id : Nat) (owner : Pubkey) (receiver : Pubkey)
  | Burn (token_id : Nat)
deriving DecidableEq

/-- `ContractInstruction::unpack_pubkey`: 32 bytes, else
`InvalidInstruction`. -/
def unpack_pubkey (input : List Nat) : Except ProgramError (Pubkey × List Nat) :=
  if input.length < 32 then .error (.Custom .InvalidInstruction)
  else .ok (input.take 32, input.drop 32)

/-- `ContractInstruction::unpack_u64`: 8 little-endian bytes, else
`InvalidInstruction`. -/
def unpack_u64 (input : List Nat) : Except ProgramError (Nat × List Nat) :=
  if input.length < 8 then .error (.Custom .InvalidInstruction)
  else .ok (leVal (input.take 8), input.drop 8)

/-- `ContractInstruction::unpack_string`: consumes every remaining byte
(the field has no length prefix), which must be valid UTF-8; the remainder
it returns is always empty. -/
def unpack_string (input : List Nat) : Except ProgramError (Str × List Nat) :=
  if validUtf8 input then .ok (input, []) else .error (.Custom .InvalidInstruction)

/-- `ContractInstruction::unpack`: the first byte selects the variant, the
remaining fields are consumed left to right. -/
def unpack (input : List Nat) : Except ProgramError ContractInstruction :=
  match input with
  | [] => .error (.Custom .InvalidInstruction)
  | variant :: rest =>
    if variant = 0 then
      match unpack_pubkey rest with
      | .error e => .error e
      | .ok (owner, _) => .ok (.InitializeContract owner)
    else if variant = 1 then
      match unpack_pubkey rest with
      | .error e => .error e
      | .ok (user, rest1) =>
        match unpack_string rest1 with
        | .error e => .error e
        | .ok (game_id, rest2) =>
          match unpack_string rest2 with
          | .error e => .error e
          | .ok (token_uri, _) => .ok (.GrantMint user game_id token_uri)
    else if variant = 2 then
      match unpack_pubkey rest with
      | .error e => .error e
      | .ok (receiver, rest1) =>
        match unpack_string rest1 with
        | .error e => .error e
        | .ok (game_id, _) => .ok (.Mint receiver game_id)
    else if variant = 3 then
      match unpack_u64 rest with
      | .error e => .error e
      | .ok (token_id, rest1) =>
        match unpack_pubkey rest1 with
        | .error e => .error e
        | .ok (owner, rest2) =>
          match unpack_pubkey rest2 with
          | .error e => .error e
          | .ok (receiver, _) => .ok (.Transfer token_id owner receiver)
    else if variant = 4 then
      match unpack_u64 rest with
      | .error e => .error e
      | .ok (token_id, _) => .ok (.Burn token_id)
    else .error (.Custom .InvalidInstruction)

/-- The contract's persisted `ContractState`. -/
structure ContractState where
  contract_owner : Pubkey
  last_token_id : Nat
deriving DecidableEq

/-- The `MintPermission` record. -/
structure MintPermission where
  user : Pubkey
  game_id : Str
  token_uri : Str
deriving DecidableEq

/-- Borsh `ContractState::try_from_slice`: 32 key bytes, then an 8-byte
little-endian `u64`, and — as borsh's `try_from_slice` demands — no bytes
left over, so the buffer must be exactly 40 bytes long. -/
def ContractState.try_from_slice (data : List Nat) :
    Except ProgramError ContractState :=
  if data.length = 40 then .ok ⟨data.take 32, leVal (data.drop 32)⟩
  else .error .BorshIoError

/-- Borsh serialization of a `ContractState`: the 32 key bytes followed by
the 8-byte little-endian counter. -/
def ContractState.serializeBytes (s : ContractState) : List Nat :=
  s.contract_owner ++ leBytes 8 s.last_token_id

/-- Borsh string deserialization: a 4-byte little-endian length prefix,
then that many bytes, which must be valid UTF-8. -/
def readString (data : List Nat) : Except ProgramError (Str × List Nat) :=
  if data.length < 4 then .error .BorshIoError
  else
    if (data.drop 4).length < leVal (data.take 4) then .error .BorshIoError
    else if validUtf8 ((data.drop 4).take (leVal (data.take 4))) then
      .ok ((data.drop 4).take (leVal (data.take 4)),
        (data.drop 4).drop (leVal (data.take 4)))
    else .error .BorshIoError

/-- Borsh `MintPermission::try_from_slice`: 32 user bytes, two
length-prefixed strings, and no bytes left over. -/
def MintPermission.try_from_slice (data : List Nat) :
    Except ProgramError MintPermission :=
  if data.length < 32 then .error .BorshIoError
  else
    match readString (data.drop 32) with
    | .error e => .error e
    | .ok (game_id, r1) =>
      match readString r1 with
      | .error e => .error e
      | .ok (token_uri, r2) =>
        if r2 = [] then .ok ⟨data.take 32, game_id, token_uri⟩
        else .error .BorshIoError

/-- Borsh serialization of a `MintPermission`: the 32 user bytes, then each
string as a 4-byte little-endian length followed by its bytes. -/
def MintPermission.serializeBytes (p : MintPermission) : List Nat :=
  p.user ++ leBytes 4 p.game_id.length ++ p.game_id
    ++ leBytes 4 p.token_uri.length ++ p.token_uri

/-- The slice of Solana's `AccountInfo` the contract reads: the key, the
lamport balance, and the mutable data buffer. -/
structure AccountInfo where
  key : Pubkey
  lamports : Nat
  data : List Nat
deriving DecidableEq

/-- One downstream call dispatched through `invoke` to the spl-token
program, carrying the account keys and the amount the contract passes to
the spl instruction builder. -/
inductive LedgerCall
  | mintTo (mint receiver authority : Pubkey) (amount : Nat)
  | transferCall (source dest authority : Pubkey) (amount : Nat)
  | burnCall (mint owner authority : Pubkey) (amount : Nat)
deriving DecidableEq

/-- Result of one handler run: the accounts after it (only `account[0]`'s
data buffer is ever rewritten), the downstream ledger calls dispatched, and
the returned `ProgramResult`. -/
structure Outcome where
  accounts : List AccountInfo
  calls : List LedgerCall
  result : Except ProgramError Unit
deriving DecidableEq

/-- Replace `account[0]`'s data buffer: the write-back through
`contract_account.data.borrow_mut()`. -/
def setData0 (accounts : List AccountInfo) (d : List Nat) : List AccountInfo :=
  match accounts with
  | [] => []
  | a :: rest => { a with data := d } :: rest

/-- Writing a borsh serialization into an account buffer through
`serialize(&mut &mut data[..])`. The `Write` impl for `&mut [u8]` commits
every byte that fits before failing: on success the serialized prefix is
overwritten and the trailing bytes kept; when the serialization exceeds
the buffer, the whole buffer is overwritten with the serialization's
prefix and only then does `write_all` error (`WriteZero`). Returns the
buffer after the call together with the write's result. -/
def writeInto (buf ser : List Nat) : List Nat × Except ProgramError Unit :=
  if ser.length ≤ buf.length then (ser ++ buf.drop ser.length, .ok ())
  else (ser.take buf.length, .error .BorshIoError)

/-- The `initialize_contract` handler. The rent sysvar deserialized from
`account[1]` and its `is_exempt(lamports, data_len)` test are host-supplied
and abstracted as the predicate `isExempt` on `account[0]`'s lamports and
data length. -/
def initialize_contract (accounts : List AccountInfo) (owner : Pubkey)
    (isExempt : Nat → Nat → Bool) : Outcome :=
  match accounts with
  | ca :: _rent :: _ =>
    if !(isExempt ca.lamports ca.data.length) then
      ⟨accounts, [], .error .AccountNotRentExempt⟩
    else
      match ContractState.try_from_slice ca.data with
      | .error e => ⟨accounts, [], .error e⟩
      | .ok cs =>
        let cs2 : ContractState := { cs with contract_owner := owner, last_token_id := 0 }
        let w := writeInto ca.data cs2.serializeBytes
        ⟨setData0 accounts w.1, [], w.2⟩
  | _ => ⟨accounts, [], .error .NotEnoughAccountKeys⟩

/-- The `grant_mint` handler: deserializes the `ContractState` from
`account[0]`, requires `account[1]`'s key to equal the stored owner, then
serializes a fresh `MintPermission` into `account[0]`'s buffer. -/
def grant_mint (accounts : List AccountInfo) (user : Pubkey)
    (game_id : Str) (token_uri : Str) : Outcome :=
  match accounts with
  | ca :: aa :: _ =>
    match ContractState.try_from_slice ca.data with
    | .error e => ⟨accounts, [], .error e⟩
    | .ok cs =>
      if cs.contract_owner ≠ aa.key then
        ⟨accounts, [], .error (.Custom .NotAdmin)⟩
      else
        let w := writeInto ca.data (MintPermission.serializeBytes ⟨user, game_id, token_uri⟩)
        ⟨setData0 accounts w.1, [], w.2⟩
  | _ => ⟨accounts, [], .error .NotEnoughAccountKeys⟩

/-- The `mint` handler: deserializes both a `ContractState` and a
`MintPermission` from `account[0]`'s buffer, requires the permission's user
to be `account[0]`'s own key and the game id to match, writes back the
incremented counter, then delegates a one-unit `mint_to` naming
`account[1]` as mint, `account[2]` as receiver and `account[0]` as
authority. The external `invoke` is the argument `ivk`. -/
def mint (accounts : List AccountInfo) (receiver : Pubkey) (game_id : Str)
    (ivk : LedgerCall → Except ProgramError Unit) : Outcome :=
  match accounts with
  | ca :: ma :: ra :: _ =>
    match ContractState.try_from_slice ca.data with
    | .error e => ⟨accounts, [], .error e⟩
    | .ok cs =>
      match MintPermission.try_from_slice ca.data with
      | .error e => ⟨accounts, [], .error e⟩
      | .ok mp =>
        if mp.user ≠ ca.key ∨ mp.game_id ≠ game_id then
          ⟨accounts, [], .error (.Custom .MintNotPermitted)⟩
        else
          let cs2 : ContractState := { cs with last_token_id := cs.last_token_id + 1 }
          match writeInto ca.data cs2.serializeBytes with
          | (d, .error e) => ⟨setData0 accounts d, [], .error e⟩
          | (d, .ok _) =>
            ⟨setData0 accounts d, [LedgerCall.mintTo ma.key ra.key ca.key 1],
              ivk (LedgerCall.mintTo ma.key ra.key ca.key 1)⟩
  | _ => ⟨accounts, [], .error .NotEnoughAccountKeys⟩

/-- The `transfer` handler: requires `account[0]`'s key to equal the
instruction's declared owner, then delegates a one-unit spl transfer from
`account[0]` to `account[1]`, authorized by `account[0]`. Neither
`token_id` nor the instruction's `receiver` field is used. -/
def transfer (accounts : List AccountInfo) (token_id : Nat) (owner : Pubkey)
    (receiver : Pubkey) (ivk : LedgerCall → Except ProgramError Unit) : Outcome :=
  match accounts with
  | oa :: ra :: _ =>
    if oa.key ≠ owner then
      ⟨accounts, [], .error (.Custom .NotTokenOwner)⟩
    else
      ⟨accounts, [LedgerCall.transferCall oa.key ra.key oa.key 1],
        ivk (LedgerCall.transferCall oa.key ra.key oa.key 1)⟩
  | _ => ⟨accounts, [], .error .NotEnoughAccountKeys⟩

/-- The `burn` handler: no check of its own; delegates a burn of amount
`token_id` from `account[0]` under `account[1]`'s mint, authorized by
`account[0]`. -/
def burn (accounts : List AccountInfo) (token_id : Nat)
    (ivk : LedgerCall → Except ProgramError Unit) : Outcome :=
  match accounts with
  | oa :: ma :: _ =>
    ⟨accounts, [LedgerCall.burnCall ma.key oa.key oa.key token_id],
      ivk (LedgerCall.burnCall ma.key oa.key oa.key token_id)⟩
  | _ => ⟨accounts, [], .error .NotEnoughAccountKeys⟩

/-- The entry point `process_instruction`: decode, then dispatch to the
five handlers. -/
def process_instruction (accounts : List AccountInfo) (instruction_data : List Nat)
    (isExempt : Nat → Nat → Bool)
    (ivk : LedgerCall → Except ProgramError Unit) : Outcome :=
  match unpack instruction_data with
  | .error e => ⟨accounts, [], .error e⟩
  | .ok (.InitializeContract owner) => initialize_contract accounts owner isExempt
  | .ok (.GrantMint user game_id token_uri) => grant_mint accounts user game_id token_uri
  | .ok (.Mint receiver game_id) => mint accounts receiver game_id ivk
  | .ok (.Transfer token_id owner receiver) => transfer accounts token_id owner receiver ivk
  | .ok (.Burn token_id) => burn accounts token_id ivk

/-- The `last_token_id` field region of a persisted buffer: bytes 32..40
read as a little-endian `u64`. -/
def counterField (d : List Nat) : Nat := leVal ((d.drop 32).take 8)

/-- The counter field of `account[0]`'s buffer (0 when no account is
supplied). -/
def counter0 (accounts : List AccountInfo) : Nat :=
  match accounts with
  | [] => 0
  | a :: _ => counterField a.data

/-- Head account of an account list, with an empty default. -/
def head0 (accounts : List AccountInfo) : AccountInfo :=
  match accounts with
  | [] => ⟨[], 0, []⟩
  | a :: _ => a

/-- An external `invoke` that always succeeds, for concrete scenarios. -/
def okIvk : LedgerCall → Except ProgramError Unit := fun _ => .ok ()

/-- Little-endian value of a concatenation of byte lists. -/
theorem leVal_append (a b : List Nat) :
    leVal (a ++ b) = leVal a + 256 ^ a.length * leVal b := by
  induction a with
  | nil => simp [leVal]
  | cons x xs ih =>
    simp only [List.cons_append, leVal, List.length_cons, List.append_eq, ih]
    ring

/-- Characterization of a successful `ContractState` parse: the buffer is
exactly 40 bytes, the owner is its first 32 bytes and the counter the
little-endian value of the last 8. -/
theorem cs_parse (d : List Nat) (cs : ContractState)
    (h : ContractState.try_from_slice d = .ok cs) :
    d.length = 40 ∧ cs = ⟨d.take 32, leVal (d.drop 32)⟩ := by
  unfold ContractState.try_from_slice at h
  split at h
  · exact ⟨by assumption, by injection h with h2; exact h2.symm⟩
  · exact absurd h (by simp)

/-- Characterization of a successful borsh string read. -/
theorem readString_ok (data : List Nat) (s : Str) (r : List Nat)
    (h : readString data = .ok (s, r)) :
    4 ≤ data.length ∧ leVal (data.take 4) ≤ (data.drop 4).length ∧
    s = (data.drop 4).take (leVal (data.take 4)) ∧
    r = (data.drop 4).drop (leVal (data.take 4)) := by
  unfold readString at h
  split at h
  · exact absurd h (by simp)
  · split at h
    · exact absurd h (by simp)
    · split at h
      · injection h with h2
        injection h2 with h3 h4
        exact ⟨by omega, by omega, h3.symm, h4.symm⟩
      · exact absurd h (by simp)

/-- A successful `MintPermission` parse of a 40-byte buffer forces both
borsh length prefixes to be zero: the two strings are empty and the whole
8-byte region at offset 32 — the region `ContractState` reads as
`last_token_id` — is zero. -/
theorem mp_parse_forces (d : List Nat) (mp : MintPermission)
    (hlen : d.length = 40)
    (hm : MintPermission.try_from_slice d = .ok mp) :
    leVal (d.drop 32) = 0 ∧ mp.user = d.take 32 ∧
    mp.game_id = [] ∧ mp.token_uri = [] := by
  unfold MintPermission.try_from_slice at hm
  split at hm
  · exact absurd hm (by simp)
  · cases h1 : readString (d.drop 32) with
    | error e => rw [h1] at hm; exact absurd hm (by simp)
    | ok gr =>
      obtain ⟨g, r1⟩ := gr
      rw [h1] at hm
      dsimp only at hm
      obtain ⟨hd1, hle1, hs1, hr1⟩ := readString_ok _ _ _ h1
      cases h2 : readString r1 with
      | error e => rw [h2] at hm; exact absurd hm (by simp)
      | ok ur =>
        obtain ⟨u, r2⟩ := ur
        rw [h2] at hm
        dsimp only at hm
        obtain ⟨hd2, hle2, hs2, hr2⟩ := readString_ok _ _ _ h2
        have hlt : (d.drop 32).length = 8 := by simp [hlen]
        have hlt4 : ((d.drop 32).drop 4).length = 4 := by simp [hlen]
        have hr1len : r1.length = 4 - leVal ((d.drop 32).take 4) := by
          rw [hr1, List.length_drop, hlt4]
        have hlen1 : leVal ((d.drop 32).take 4) = 0 := by omega
        have hr1eq : r1 = (d.drop 32).drop 4 := by rw [hr1, hlen1]; simp
        have hdrop0 : (r1.drop 4).length = 0 := by rw [List.length_drop]; omega
        have hlen2 : leVal (r1.take 4) = 0 := by omega
        have htake4 : r1.take 4 = r1 := List.take_of_length_le (by omega)
        split at hm
        · injection hm with hmp
          have hgeq : g = [] := by rw [hs1, hlen1]; simp
          have hteq : u = [] := by rw [hs2, hlen2]; simp
          have hval : leVal (d.drop 32) = 0 := by
            have hsplit : (d.drop 32).take 4 ++ (d.drop 32).drop 4 = d.drop 32 :=
              List.take_append_drop 4 (d.drop 32)
            have happ := leVal_append ((d.drop 32).take 4) ((d.drop 32).drop 4)
            rw [hsplit] at happ
            have hlen2d : leVal ((d.drop 32).drop 4) = 0 := by
              rw [← hr1eq, ← htake4]; exact hlen2
            rw [happ, hlen1, hlen2d]
            simp
          refine ⟨hval, ?_, ?_, ?_⟩
          · rw [← hmp]
          · rw [← hmp]; exact hgeq
          · rw [← hmp]; exact hteq
        · exact absurd hm (by simp)

/-- A `leBytes` run is exactly `w` bytes long. -/
theorem leBytes_length (w v : Nat) : (leBytes w v).length = w := by
  induction w generalizing v with
  | zero => rfl
  | succ n ih => simp [leBytes, ih]

/-- On a 40-byte buffer, the counter field is the little-endian value of
everything from offset 32. -/
theorem counterField_eq (d : List Nat) (h : d.length = 40) :
    counterField d = leVal (d.drop 32) := by
  unfold counterField
  rw [List.take_of_length_le (by simp [h])]

/-- Characterization of a successful `unpack_pubkey`. -/
theorem unpack_pubkey_ok (input : List Nat) (p : Pubkey) (r : List Nat)
    (h : unpack_pubkey input = .ok (p, r)) :
    32 ≤ input.length ∧ p = input.take 32 ∧ r = input.drop 32 := by
  unfold unpack_pubkey at h
  split at h
  · exact absurd h (by simp)
  · injection h with h2
    injection h2 with h3 h4
    exact ⟨by omega, h3.symm, h4.symm⟩

/-- Characterization of a successful `unpack_string`: it takes the whole
input and leaves nothing. -/
theorem unpack_string_ok (input : List Nat) (s : Str) (r : List Nat)
    (h : unpack_string input = .ok (s, r)) : s = input ∧ r = [] := by
  unfold unpack_string at h
  split at h
  · injection h with h2
    injection h2 with h3 h4
    exact ⟨h3.symm, h4.symm⟩
  · exact absurd h (by simp)

/-- Concrete 32-byte key of the initial administrator. -/
def keyAd : Pubkey := List.replicate 32 1

/-- Concrete 32-byte key of the contract storage account. -/
def keyCt : Pubkey := List.replicate 32 2

/-- Concrete 32-byte key of a receiver token account. -/
def keyRv : Pubkey := List.replicate 32 3

/-- Concrete 32-byte key of a token mint account. -/
def keyMt : Pubkey := List.replicate 32 4

/-- Concrete 32-byte key of an unrelated third party. -/
def keyOt : Pubkey := List.replicate 32 9

/-- The buffer after any `writeInto`, success or failure: the
serialization followed by the old tail, truncated to the old buffer's
length. On overflow this is the partial overwrite of the whole buffer
that `write_all` commits before erroring. -/
theorem writeInto_fst (buf ser : List Nat) :
    (writeInto buf ser).1 = (ser ++ buf.drop ser.length).take buf.length := by
  unfold writeInto
  split
  · dsimp only
    have hlen2 : (ser ++ buf.drop ser.length).length = buf.length := by
      rw [List.length_append, List.length_drop]
      omega
    rw [List.take_of_length_le (le_of_eq hlen2)]
  · dsimp only
    rw [List.drop_eq_nil_of_le (by omega), List.append_nil]

/-- Claim C1 scenario, step 0: the contract storage account, holding a
`ContractState` owned by `keyAd` with counter 0. -/
def c1Start : AccountInfo := ⟨keyCt, 0, keyAd ++ leBytes 8 0⟩

/-- Claim C1 scenario, step 1: the admin grants a permission to `keyCt`
itself (the only user the mint check can accept) with empty strings (the
only strings the 40-byte slot can hold). -/
def c1G1 : Outcome := grant_mint [c1Start, ⟨keyAd, 0, []⟩] keyCt [] []

/-- Claim C1 scenario, step 2: first mint against the fresh permission. -/
def c1M1 : Outcome :=
  mint [head0 c1G1.accounts, ⟨keyMt, 0, []⟩, ⟨keyRv, 0, []⟩] keyRv [] okIvk

/-- Claim C1 scenario, step 3: a fresh grant before the second mint (the
stored owner bytes are now `keyCt`, so `keyCt` signs as admin). -/
def c1G2 : Outcome := grant_mint [head0 c1M1.accounts, ⟨keyCt, 0, []⟩] keyCt [] []

/-- Claim C1 scenario, step 4: second mint, against the second fresh
permission. -/
def c1M2 : Outcome :=
  mint [head0 c1G2.accounts, ⟨keyMt, 0, []⟩, ⟨keyRv, 0, []⟩] keyRv [] okIvk

/-- Claim C1 scenario, alternative step 3: a second mint directly after the
first, with no fresh grant in between. -/
def c1M2direct : Outcome :=
  mint [head0 c1M1.accounts, ⟨keyMt, 0, []⟩, ⟨keyRv, 0, []⟩] keyRv [] okIvk

/-- Claim C1 is false as stated: in the run below, N = 2 Mint invocations
each succeed against a freshly granted permission, yet `last_token_id`
ends at 1, not 2 — each grant rewrites the counter region, so the count
restarts — and a second mint without a fresh grant does not even parse,
failing with a borsh error. -/
theorem C1_counterexample :
    c1G1.result = .ok () ∧ c1M1.result = .ok () ∧
    c1G2.result = .ok () ∧ c1M2.result = .ok () ∧
    counter0 c1M1.accounts = 1 ∧ counter0 c1M2.accounts = 1 ∧
    c1M2direct.result = .error .BorshIoError := by decide

/-- Claim C1 (amended): each successful Mint call does deserialize the
persisted state, increment `last_token_id` by exactly one and write it
back; but the permission parse succeeding on the same 40 bytes forces the
deserialized counter to be 0, so every successful Mint leaves
`last_token_id` = 1 and N consecutive successful mints cannot reach N. -/
theorem C1_amended (ca ma ra : AccountInfo) (rest : List AccountInfo)
    (receiver : Pubkey) (game_id : Str)
    (ivk : LedgerCall → Except ProgramError Unit)
    (cs : ContractState) (mp : MintPermission)
    (hc : ContractState.try_from_slice ca.data = .ok cs)
    (hm : MintPermission.try_from_slice ca.data = .ok mp)
    (hu : mp.user = ca.key) (hg : mp.game_id = game_id) :
    cs.last_token_id = 0 ∧
    (mint (ca :: ma :: ra :: rest) receiver game_id ivk).accounts =
      setData0 (ca :: ma :: ra :: rest)
        (ca.data.take 32 ++ leBytes 8 (cs.last_token_id + 1)) := by
  obtain ⟨hlen, hcs⟩ := cs_parse _ _ hc
  obtain ⟨hval, _, _, _⟩ := mp_parse_forces _ _ hlen hm
  have hlast : cs.last_token_id = 0 := by rw [hcs]; exact hval
  have hown : cs.contract_owner = ca.data.take 32 := by rw [hcs]
  refine ⟨hlast, ?_⟩
  simp only [mint]
  rw [hc]
  dsimp only
  rw [hm]
  dsimp only
  rw [if_neg (by simp [hu, hg])]
  have hw : writeInto ca.data (ContractState.serializeBytes
      { cs with last_token_id := cs.last_token_id + 1 }) =
      (ca.data.take 32 ++ leBytes 8 (cs.last_token_id + 1), .ok ()) := by
    unfold ContractState.serializeBytes writeInto
    dsimp only
    rw [hown]
    have h1 : (ca.data.take 32 ++ leBytes 8 (cs.last_token_id + 1)).length = 40 := by
      rw [List.length_append, List.length_take, leBytes_length]
      omega
    rw [if_pos (by omega), h1, List.drop_eq_nil_of_le (by omega), List.append_nil]
  rw [hw]

/-- Witness for claim C1's amended statement at a concrete input: one mint
against a fresh permission writes counter 1. -/
theorem C1_witness :
    (⟨keyCt, 0⟩ : ContractState).last_token_id = 0 ∧
    (mint [⟨keyCt, 0, keyCt ++ leBytes 8 0⟩, ⟨keyMt, 0, []⟩, ⟨keyRv, 0, []⟩]
        keyRv [] okIvk).accounts =
      setData0 [⟨keyCt, 0, keyCt ++ leBytes 8 0⟩, ⟨keyMt, 0, []⟩, ⟨keyRv, 0, []⟩]
        ((keyCt ++ leBytes 8 0).take 32 ++
          leBytes 8 ((⟨keyCt, 0⟩ : ContractState).last_token_id + 1)) :=
  C1_amended ⟨keyCt, 0, keyCt ++ leBytes 8 0⟩ ⟨keyMt, 0, []⟩ ⟨keyRv, 0, []⟩ []
    keyRv [] okIvk ⟨keyCt, 0⟩ ⟨keyCt, [], []⟩
    (by decide) (by decide) (by decide) (by decide)

/-- Claim C2 scenario: storage holding owner `keyAd` and counter 1, then
reinitialized by anyone with a new owner. -/
def c2Start : AccountInfo := ⟨keyCt, 0, keyAd ++ leBytes 8 1⟩

/-- Claim C2 scenario: the reinitialization outcome. -/
def c2Init : Outcome :=
  initialize_contract [c2Start, ⟨keyRv, 0, []⟩] keyOt (fun _ _ => true)

/-- Claim C2 is false as stated: `InitializeContract` applied to a
reachable state with `last_token_id` = 1 succeeds and resets the counter
to 0, a decrease. -/
theorem C2_counterexample :
    counter0 [c2Start, ⟨keyRv, 0, []⟩] = 1 ∧
    c2Init.result = .ok () ∧
    counter0 c2Init.accounts = 0 := by decide

/-- Claim C2 (amended): `last_token_id` never decreases under Mint, and
Transfer and Burn never change any buffer; but InitializeContract resets
the counter to 0 whenever it succeeds, and once past the admin check
GrantMint overwrites `account[0]`'s buffer with the serialized permission
truncated to the buffer's length (the partial write `write_all` commits
even when the permission does not fit and the call errors) — so neither
of those two preserves the counter's lower bound. -/
theorem C2_amended (accounts : List AccountInfo)
    (receiver owner recv2 user : Pubkey) (game_id token_uri : Str) (tid : Nat)
    (ivk : LedgerCall → Except ProgramError Unit) (isExempt : Nat → Nat → Bool)
    (h32 : owner.length = 32) :
    counter0 accounts ≤ counter0 (mint accounts receiver game_id ivk).accounts ∧
    (transfer accounts tid owner recv2 ivk).accounts = accounts ∧
    (burn accounts tid ivk).accounts = accounts ∧
    (counter0 (initialize_contract accounts owner isExempt).accounts = 0 ∨
      (initialize_contract accounts owner isExempt).accounts = accounts) ∧
    ((grant_mint accounts user game_id token_uri).accounts =
        setData0 accounts ((MintPermission.serializeBytes ⟨user, game_id, token_uri⟩
          ++ (head0 accounts).data.drop
            (MintPermission.serializeBytes ⟨user, game_id, token_uri⟩).length).take
          (head0 accounts).data.length) ∨
      (grant_mint accounts user game_id token_uri).accounts = accounts) := by
  refine ⟨?_, ?_, ?_, ?_, ?_⟩
  · match accounts with
    | [] => exact le_refl _
    | [a] => exact le_refl _
    | [a, b] => exact le_refl _
    | ca :: ma :: ra :: t =>
      simp only [mint]
      cases hc : ContractState.try_from_slice ca.data with
      | error e => exact le_refl _
      | ok cs =>
        dsimp only
        cases hm : MintPermission.try_from_slice ca.data with
        | error e => exact le_refl _
        | ok mp =>
          dsimp only
          obtain ⟨hlen, hcs⟩ := cs_parse _ _ hc
          obtain ⟨hval, _, _, _⟩ := mp_parse_forces _ _ hlen hm
          have h0 : counter0 (ca :: ma :: ra :: t) = 0 := by
            simp only [counter0]
            rw [counterField_eq _ hlen, hval]
          rw [h0]
          exact Nat.zero_le _
  · match accounts with
    | [] => rfl
    | [a] => rfl
    | a :: b :: t =>
      simp only [transfer]
      split <;> rfl
  · match accounts with
    | [] => rfl
    | [a] => rfl
    | a :: b :: t => rfl
  · match accounts with
    | [] => exact Or.inr rfl
    | [a] => exact Or.inr rfl
    | ca :: rb :: t =>
      simp only [initialize_contract]
      split
      · exact Or.inr rfl
      · cases hc : ContractState.try_from_slice ca.data with
        | error e => exact Or.inr rfl
        | ok cs =>
          dsimp only
          obtain ⟨hlen, hcs⟩ := cs_parse _ _ hc
          have hw : writeInto ca.data (ContractState.serializeBytes
              { cs with contract_owner := owner, last_token_id := 0 }) =
              (owner ++ leBytes 8 0, .ok ()) := by
            unfold ContractState.serializeBytes writeInto
            dsimp only
            have hl : (owner ++ leBytes 8 0).length = 40 := by
              rw [List.length_append, leBytes_length]
              omega
            rw [if_pos (by omega), hl, List.drop_eq_nil_of_le (by omega),
              List.append_nil]
          rw [hw]
          dsimp only
          left
          simp only [counter0, setData0]
          unfold counterField
          have hdrop32 : (owner ++ leBytes 8 0).drop 32 = leBytes 8 0 := by
            rw [← h32]
            exact List.drop_left _ _
          rw [hdrop32]
          decide
  · match accounts with
    | [] => exact Or.inr rfl
    | [a] => exact Or.inr rfl
    | ca :: ab :: t =>
      simp only [grant_mint]
      cases hc : ContractState.try_from_slice ca.data with
      | error e => exact Or.inr rfl
      | ok cs =>
        dsimp only
        split
        · exact Or.inr rfl
        · left
          dsimp only [head0]
          rw [writeInto_fst]

/-- Account pair for the C2 witness instantiation. -/
def c2Accs : List AccountInfo := [⟨keyCt, 0, keyAd ++ leBytes 8 0⟩, ⟨keyRv, 0, []⟩]

/-- Witness for claim C2's amended statement at a concrete input. -/
theorem C2_witness :
    keyOt.length = 32 ∧
    (counter0 c2Accs ≤ counter0 (mint c2Accs keyRv [] okIvk).accounts ∧
      (transfer c2Accs 7 keyOt keyRv okIvk).accounts = c2Accs ∧
      (burn c2Accs 7 okIvk).accounts = c2Accs ∧
      (counter0 (initialize_contract c2Accs keyOt (fun _ _ => true)).accounts = 0 ∨
        (initialize_contract c2Accs keyOt (fun _ _ => true)).accounts = c2Accs) ∧
      ((grant_mint c2Accs keyCt [] []).accounts =
          setData0 c2Accs ((MintPermission.serializeBytes ⟨keyCt, [], []⟩
            ++ (head0 c2Accs).data.drop
              (MintPermission.serializeBytes ⟨keyCt, [], []⟩).length).take
            (head0 c2Accs).data.length) ∨
        (grant_mint c2Accs keyCt [] []).accounts = c2Accs)) :=
  ⟨by decide,
    C2_amended c2Accs keyRv keyOt keyRv keyCt [] [] 7 okIvk (fun _ _ => true)
      (by decide)⟩

/-- Claim C3: a GrantMint whose second supplied account's key differs from
the `contract_owner` stored in `account[0]`'s persisted `ContractState`
fails with `NotAdmin`, dispatches nothing, and leaves every account — in
particular `account[0]`'s data buffer — byte-for-byte unchanged. -/
theorem C3_grant_requires_admin (ca aa : AccountInfo) (rest : List AccountInfo)
    (user : Pubkey) (game_id token_uri : Str) (cs : ContractState)
    (hc : ContractState.try_from_slice ca.data = .ok cs)
    (hne : cs.contract_owner ≠ aa.key) :
    grant_mint (ca :: aa :: rest) user game_id token_uri =
      ⟨ca :: aa :: rest, [], .error (.Custom .NotAdmin)⟩ := by
  simp only [grant_mint]
  rw [hc]
  simp [hne]

/-- Witness for claim C3 at a concrete input: a stranger key is rejected. -/
theorem C3_witness :
    grant_mint [⟨keyCt, 0, keyAd ++ leBytes 8 0⟩, ⟨keyOt, 0, []⟩] keyCt [] [] =
      ⟨[⟨keyCt, 0, keyAd ++ leBytes 8 0⟩, ⟨keyOt, 0, []⟩], [],
        .error (.Custom .NotAdmin)⟩ :=
  C3_grant_requires_admin ⟨keyCt, 0, keyAd ++ leBytes 8 0⟩ ⟨keyOt, 0, []⟩ []
    keyCt [] [] ⟨keyAd, 0⟩ (by decide) (by decide)

/-- Claim C4: every buffer `unpack` parses into a GrantMint has an empty
decoded `token_uri`, because `game_id` consumed every byte after the
33-byte fixed prefix and the second string read received an empty slice. -/
theorem C4_token_uri_always_empty (input : List Nat) (user : Pubkey)
    (game_id token_uri : Str)
    (h : unpack input = .ok (.GrantMint user game_id token_uri)) :
    token_uri = [] ∧ game_id = input.drop 33 := by
  cases input with
  | nil => simp [unpack] at h
  | cons v rest =>
    unfold unpack at h
    dsimp only at h
    by_cases h0 : v = 0
    · rw [if_pos h0] at h
      cases hp : unpack_pubkey rest with
      | error e => rw [hp] at h; simp at h
      | ok pr =>
        obtain ⟨o, r⟩ := pr
        rw [hp] at h; simp at h
    · rw [if_neg h0] at h
      by_cases h1 : v = 1
      · rw [if_pos h1] at h
        cases hp : unpack_pubkey rest with
        | error e => rw [hp] at h; simp at h
        | ok pr =>
          obtain ⟨u, r1⟩ := pr
          rw [hp] at h
          dsimp only at h
          cases hs1 : unpack_string r1 with
          | error e => rw [hs1] at h; simp at h
          | ok gr =>
            obtain ⟨g, r2⟩ := gr
            rw [hs1] at h
            dsimp only at h
            cases hs2 : unpack_string r2 with
            | error e => rw [hs2] at h; simp at h
            | ok tr =>
              obtain ⟨t, r3⟩ := tr
              rw [hs2] at h
              dsimp only at h
              injection h with h2
              injection h2 with hu hg ht
              obtain ⟨hg1, hr2⟩ := unpack_string_ok _ _ _ hs1
              obtain ⟨_, _, hr1⟩ := unpack_pubkey_ok _ _ _ hp
              subst hr2
              obtain ⟨ht1, _⟩ := unpack_string_ok _ _ _ hs2
              constructor
              · rw [← ht, ht1]
              · rw [← hg, hg1, hr1]
                simp
      · rw [if_neg h1] at h
        by_cases h2 : v = 2
        · rw [if_pos h2] at h
          cases hp : unpack_pubkey rest with
          | error e => rw [hp] at h; simp at h
          | ok pr =>
            obtain ⟨u, r1⟩ := pr
            rw [hp] at h
            dsimp only at h
            cases hs1 : unpack_string r1 with
            | error e => rw [hs1] at h; simp at h
            | ok gr =>
              obtain ⟨g, r2⟩ := gr
              rw [hs1] at h; simp at h
        · rw [if_neg h2] at h
          by_cases h3 : v = 3
          · rw [if_pos h3] at h
            cases hq : unpack_u64 rest with
            | error e => rw [hq] at h; simp at h
            | ok qr =>
              obtain ⟨tid, r1⟩ := qr
              rw [hq] at h
              dsimp only at h
              cases hp : unpack_pubkey r1 with
              | error e => rw [hp] at h; simp at h
              | ok pr =>
                obtain ⟨o, r2⟩ := pr
                rw [hp] at h
                dsimp only at h
                cases hp2 : unpack_pubkey r2 with
                | error e => rw [hp2] at h; simp at h
                | ok pr2 =>
                  obtain ⟨o2, r3⟩ := pr2
                  rw [hp2] at h; simp at h
          · rw [if_neg h3] at h
            by_cases h4 : v = 4
            · rw [if_pos h4] at h
              cases hq : unpack_u64 rest with
              | error e => rw [hq] at h; simp at h
              | ok qr =>
                obtain ⟨tid, r1⟩ := qr
                rw [hq] at h; simp at h
            · rw [if_neg h4] at h
              simp at h

/-- Witness for claim C4 at a concrete input: a 33-byte GrantMint buffer. -/
theorem C4_witness : ([] : Str) = [] ∧ ([] : Str) = (1 :: keyAd).drop 33 :=
  C4_token_uri_always_empty (1 :: keyAd) keyAd [] [] (by decide)

/-- Claim C5 is false as stated for GrantMint: this 34-byte buffer — 33
fixed bytes plus a single one-byte string, so fewer than 40 bytes on
either reading — decodes successfully instead of failing. -/
theorem C5_counterexample :
    (1 :: List.replicate 32 0 ++ [65]).length = 34 ∧
    unpack (1 :: List.replicate 32 0 ++ [65]) =
      .ok (.GrantMint (List.replicate 32 0) [65] []) := by decide

/-- Claim C5 (amended): the fixed part GrantMint needs before its trailing
strings is 33 bytes (tag plus 32-byte user), not 40 — both an Initialize
buffer and a GrantMint buffer shorter than 33 bytes in total fail with
`InvalidInstruction`. -/
theorem C5_amended (rest : List Nat) (h : rest.length < 32) :
    unpack (0 :: rest) = .error (.Custom .InvalidInstruction) ∧
    unpack (1 :: rest) = .error (.Custom .InvalidInstruction) := by
  constructor <;> simp [unpack, unpack_pubkey, h]

/-- Witness for claim C5's amended statement at a concrete input. -/
theorem C5_witness :
    unpack [0] = .error (.Custom .InvalidInstruction) ∧
    unpack [1] = .error (.Custom .InvalidInstruction) :=
  C5_amended [] (by decide)

/-- Claim C6: with the state and permission both deserialized from
`account[0]`'s buffer, Mint fails with `MintNotPermitted` — dispatching
nothing and touching no account — whenever the permission's `user` is not
`account[0]`'s own key or its `game_id` differs from the instruction's. -/
theorem C6_mint_permission_check (ca ma ra : AccountInfo) (rest : List AccountInfo)
    (receiver : Pubkey) (game_id : Str)
    (ivk : LedgerCall → Except ProgramError Unit)
    (cs : ContractState) (mp : MintPermission)
    (hc : ContractState.try_from_slice ca.data = .ok cs)
    (hm : MintPermission.try_from_slice ca.data = .ok mp)
    (hbad : mp.user ≠ ca.key ∨ mp.game_id ≠ game_id) :
    mint (ca :: ma :: ra :: rest) receiver game_id ivk =
      ⟨ca :: ma :: ra :: rest, [], .error (.Custom .MintNotPermitted)⟩ := by
  simp only [mint]
  rw [hc]
  dsimp only
  rw [hm]
  dsimp only
  rw [if_pos hbad]

/-- Witness for claim C6 at a concrete input: the granted user is the
admin's key, not the storage account's own key, so Mint is refused. -/
theorem C6_witness :
    mint [⟨keyCt, 0, keyAd ++ leBytes 8 0⟩, ⟨keyMt, 0, []⟩, ⟨keyRv, 0, []⟩]
        keyRv [] okIvk =
      ⟨[⟨keyCt, 0, keyAd ++ leBytes 8 0⟩, ⟨keyMt, 0, []⟩, ⟨keyRv, 0, []⟩], [],
        .error (.Custom .MintNotPermitted)⟩ :=
  C6_mint_permission_check ⟨keyCt, 0, keyAd ++ leBytes 8 0⟩ ⟨keyMt, 0, []⟩
    ⟨keyRv, 0, []⟩ [] keyRv [] okIvk ⟨keyAd, 0⟩ ⟨keyAd, [], []⟩
    (by decide) (by decide) (Or.inl (by decide))

/-- Claim C7: Transfer rejects with `NotTokenOwner` whenever `account[0]`'s
key differs from the declared owner, consulting no balances and touching
nothing; otherwise it dispatches exactly one one-unit downstream transfer
from `account[0]` to `account[1]` authorized by `account[0]`; and the
outcome is identical for any two `token_id` values, which shows `token_id`
never selects what moves. -/
theorem C7_transfer_behaviour (oa ra : AccountInfo) (rest : List AccountInfo)
    (tid tid2 : Nat) (owner receiver : Pubkey)
    (ivk : LedgerCall → Except ProgramError Unit) :
    (oa.key ≠ owner →
      transfer (oa :: ra :: rest) tid owner receiver ivk =
        ⟨oa :: ra :: rest, [], .error (.Custom .NotTokenOwner)⟩) ∧
    (oa.key = owner →
      transfer (oa :: ra :: rest) tid owner receiver ivk =
        ⟨oa :: ra :: rest, [LedgerCall.transferCall oa.key ra.key oa.key 1],
          ivk (LedgerCall.transferCall oa.key ra.key oa.key 1)⟩) ∧
    transfer (oa :: ra :: rest) tid owner receiver ivk =
      transfer (oa :: ra :: rest) tid2 owner receiver ivk := by
  refine ⟨fun h => ?_, fun h => ?_, rfl⟩
  · simp only [transfer]
    rw [if_pos h]
  · simp only [transfer]
    rw [if_neg (not_not_intro h)]

/-- Witness for claim C7 at a concrete input: a stranger owner is
rejected with `NotTokenOwner`. -/
theorem C7_witness :
    transfer [⟨keyCt, 0, []⟩, ⟨keyRv, 0, []⟩] 7 keyOt keyRv okIvk =
      ⟨[⟨keyCt, 0, []⟩, ⟨keyRv, 0, []⟩], [], .error (.Custom .NotTokenOwner)⟩ :=
  (C7_transfer_behaviour ⟨keyCt, 0, []⟩ ⟨keyRv, 0, []⟩ [] 7 8 keyOt keyRv okIvk).1
    (by decide)

/-- Claim C8: the 9-byte buffer of tag 4 followed by little-endian 5
decodes to `Burn` with token id 5, and processing it dispatches exactly one
downstream burn call whose amount is the raw value 5, drawn from
`account[0]` under `account[1]`'s mint. -/
theorem C8_burn_five :
    unpack (4 :: leBytes 8 5) = .ok (.Burn 5) ∧
    process_instruction [⟨keyCt, 0, []⟩, ⟨keyMt, 0, []⟩] (4 :: leBytes 8 5)
        (fun _ _ => true) okIvk =
      ⟨[⟨keyCt, 0, []⟩, ⟨keyMt, 0, []⟩],
        [LedgerCall.burnCall keyMt keyCt keyCt 5], .ok ()⟩ := by decide

/-- Claim C9: with two accounts supplied, Burn performs no authorization or
state check of its own — no buffer is read, no custom error can arise from
the handler itself, and the outcome is exactly the one dispatched
downstream burn call (mint = `account[1]`, owner and authority =
`account[0]`, amount = `token_id`) with the delegate's own result, for
every caller, buffer content and token id. -/
theorem C9_burn_no_own_checks (oa ma : AccountInfo) (rest : List AccountInfo)
    (tid : Nat) (ivk : LedgerCall → Except ProgramError Unit) :
    burn (oa :: ma :: rest) tid ivk =
      ⟨oa :: ma :: rest, [LedgerCall.burnCall ma.key oa.key oa.key tid],
        ivk (LedgerCall.burnCall ma.key oa.key oa.key tid)⟩ := rfl

/-- Claim C10: Transfer and Burn never write any account buffer on any
path, success or failure; and the three handlers that do write touch only
`account[0]` — every later account is unchanged by all five transitions. -/
theorem C10_frame (accounts : List AccountInfo) (tid : Nat)
    (owner receiver user : Pubkey) (game_id token_uri : Str)
    (ivk : LedgerCall → Except ProgramError Unit)
    (isExempt : Nat → Nat → Bool) :
    (transfer accounts tid owner receiver ivk).accounts = accounts ∧
    (burn accounts tid ivk).accounts = accounts ∧
    (initialize_contract accounts owner isExempt).accounts.drop 1 = accounts.drop 1 ∧
    (grant_mint accounts user game_id token_uri).accounts.drop 1 = accounts.drop 1 ∧
    (mint accounts receiver game_id ivk).accounts.drop 1 = accounts.drop 1 := by
  match accounts with
  | [] => exact ⟨rfl, rfl, rfl, rfl, rfl⟩
  | [a] => exact ⟨rfl, rfl, rfl, rfl, rfl⟩
  | [a, b] =>
    refine ⟨?_, rfl, ?_, ?_, rfl⟩
    · simp only [transfer]; split <;> rfl
    · simp only [initialize_contract]
      split
      · rfl
      · split
        · rfl
        · simp [setData0]
    · simp only [grant_mint]
      split
      · rfl
      · split
        · rfl
        · simp [setData0]
  | a :: b :: c :: t =>
    refine ⟨?_, rfl, ?_, ?_, ?_⟩
    · simp only [transfer]; split <;> rfl
    · simp only [initialize_contract]
      split
      · rfl
      · split
        · rfl
        · simp [setData0]
    · simp only [grant_mint]
      split
      · rfl
      · split
        · rfl
        · simp [setData0]
    · simp only [mint]
      split
      · rfl
      · split
        · rfl
        · split
          · rfl
          · split <;> simp [setData0]

end CoC
